import Mathlib

/-!
Verification development for the per-pool fee-governance and analytics engine
of the ENSIO repository (`contracts/src/PayAgentHook.sol`, contract
`PayAgentHook`).

The contract is embedded shallowly:

* Addresses and pool identifiers are natural numbers; `0` plays the role of
  `address(0)` (the "empty" principal / "no strategy" marker).
* `uint256` counters are natural numbers reduced modulo `2 ^ 256` exactly
  where the Solidity source performs `unchecked` arithmetic.
* `int256` / `int128` quantities are integers; the checked unary negation of
  Solidity 0.8 (which panics on `type(int256).min`) is modelled explicitly.
* A reverting call is an `Except.error`; since a revert rolls the transaction
  back, an operation that errors returns no new state (callers that continue
  from an error keep the old state, see `applyOp`).
* The guarded external call `try strategy.getFee{ gas: 100_000 }(...)` is
  modelled by an oracle argument `strategyAnswer : Option Nat`: `some v` means
  the strategy returned the `uint24` value `v`, `none` means the call failed
  for any reason (revert or exhausted gas budget).  The oracle is only
  consulted when a strategy is attached, mirroring the source.
* `block.number` is passed explicitly to the operations that read it.
-/

namespace PayAgentHook

/-- `MAX_FEE` from PayAgentHook.sol: fee ceiling, 10_000 hundredths of a bip (1%). -/
def MAX_FEE : Nat := 10000

/-- `DEFAULT_FEE` from PayAgentHook.sol: 3000 hundredths of a bip (0.30%). -/
def DEFAULT_FEE : Nat := 3000

/-- `TIMELOCK_BLOCKS` from PayAgentHook.sol: queued fee changes activate after
this many blocks. -/
def TIMELOCK_BLOCKS : Nat := 150

/-- Modulus of the `uint256` type used by the analytics counters. -/
def UINT256_MOD : Nat := 2 ^ 256

/-- `type(int256).min`, the one value on which Solidity 0.8 checked unary
negation panics. -/
def INT256_MIN : Int := -((2 ^ 255 : Nat) : Int)

/-- One pool's slice of the contract storage: the per-pool mappings
`poolAdmin`, `pendingPoolAdmin`, `poolStrategy`, `poolFeeOverride`,
`pendingFee`, `feeReadyBlock`, `swapCount`, `totalVolume` of
PayAgentHook.sol, gathered into a record.  `0` in `poolAdmin`,
`pendingPoolAdmin` or `poolStrategy` is `address(0)`. -/
structure PoolRecord where
  poolAdmin : Nat
  pendingPoolAdmin : Nat
  poolStrategy : Nat
  poolFeeOverride : Nat
  pendingFee : Nat
  feeReadyBlock : Nat
  swapCount : Nat
  totalVolume : Nat
deriving DecidableEq, Repr

/-- The all-zero record: Solidity storage default for an untouched pool. -/
def emptyPool : PoolRecord :=
  { poolAdmin := 0, pendingPoolAdmin := 0, poolStrategy := 0,
    poolFeeOverride := 0, pendingFee := 0, feeReadyBlock := 0,
    swapCount := 0, totalVolume := 0 }

/-- Contract storage: every pool identifier maps to its record. -/
abbrev HookState := Nat → PoolRecord

/-- Freshly deployed contract: every pool record is all zeroes. -/
def initialState : HookState := fun _ => emptyPool

/-- Point update of the storage at one pool identifier. -/
def setPool (s : HookState) (p : Nat) (r : PoolRecord) : HookState :=
  fun q => if q = p then r else s q

/-- The custom errors of PayAgentHook.sol.  `ArithmeticPanic` stands for the
Solidity 0.8 checked-arithmetic `Panic(0x11)` revert. -/
inductive HookError where
  | Unauthorized (caller : Nat)
  | FeeTooHigh (fee : Nat)
  | FeeChangeTimelocked (poolId readyBlock : Nat)
  | PoolAlreadyRegistered (poolId : Nat)
  | NoPendingAdmin (poolId : Nat)
  | NotPendingAdmin (caller : Nat)
  | ZeroAddress
  | ArithmeticPanic
deriving DecidableEq, Repr

/-- Embeds `_afterInitialize` of PayAgentHook.sol, the registration hook the
pool manager calls once per (dynamic-fee) pool: reverts with
`PoolAlreadyRegistered` when the pool already has an admin, otherwise records
`sender` as the pool admin.  (The `super._afterInitialize` call only validates
that the pool key carries the dynamic-fee flag, a property of the collaborator
engine's key, so it is outside this embedding.) -/
def registerPool (sender poolId : Nat) (s : HookState) :
    Except HookError HookState :=
  if (s poolId).poolAdmin ≠ 0 then .error (.PoolAlreadyRegistered poolId)
  else .ok (setPool s poolId { s poolId with poolAdmin := sender })

/-- Embeds `setPoolStrategy`: admin-gated, stores the strategy handle
(`0` removes it). -/
def setPoolStrategy (caller poolId strategy : Nat) (s : HookState) :
    Except HookError HookState :=
  if caller ≠ (s poolId).poolAdmin then .error (.Unauthorized caller)
  else .ok (setPool s poolId { s poolId with poolStrategy := strategy })

/-- Embeds `setPoolFee`: admin-gated, rejects values above `MAX_FEE`, then
queues `fee` with activation block `blockNumber + TIMELOCK_BLOCKS`. -/
def setPoolFee (caller poolId fee blockNumber : Nat) (s : HookState) :
    Except HookError HookState :=
  if caller ≠ (s poolId).poolAdmin then .error (.Unauthorized caller)
  else if fee > MAX_FEE then .error (.FeeTooHigh fee)
  else .ok (setPool s poolId
    { s poolId with pendingFee := fee,
                    feeReadyBlock := blockNumber + TIMELOCK_BLOCKS })

/-- Embeds `finalizePoolFee`: callable by anyone (no admin gate in the
source), reverts with `FeeChangeTimelocked` when nothing is queued
(`feeReadyBlock == 0`) or the delay has not elapsed; otherwise promotes
`pendingFee` to `poolFeeOverride` and clears the queue. -/
def finalizePoolFee (poolId blockNumber : Nat) (s : HookState) :
    Except HookError HookState :=
  let ready := (s poolId).feeReadyBlock
  if ready = 0 ∨ blockNumber < ready then
    .error (.FeeChangeTimelocked poolId ready)
  else .ok (setPool s poolId
    { s poolId with poolFeeOverride := (s poolId).pendingFee,
                    pendingFee := 0, feeReadyBlock := 0 })

/-- Embeds `transferPoolAdmin` (step 1 of the 2-step transfer): admin-gated,
rejects the zero address, records the proposed admin. -/
def transferPoolAdmin (caller poolId newAdmin : Nat) (s : HookState) :
    Except HookError HookState :=
  if caller ≠ (s poolId).poolAdmin then .error (.Unauthorized caller)
  else if newAdmin = 0 then .error .ZeroAddress
  else .ok (setPool s poolId { s poolId with pendingPoolAdmin := newAdmin })

/-- Embeds `acceptPoolAdmin` (step 2): reverts with `NoPendingAdmin` when no
transfer is in progress, with `NotPendingAdmin` when the caller is not the
proposed admin; otherwise installs the proposed admin and clears the
proposal. -/
def acceptPoolAdmin (caller poolId : Nat) (s : HookState) :
    Except HookError HookState :=
  let pending := (s poolId).pendingPoolAdmin
  if pending = 0 then .error (.NoPendingAdmin poolId)
  else if caller ≠ pending then .error (.NotPendingAdmin caller)
  else .ok (setPool s poolId
    { s poolId with poolAdmin := pending, pendingPoolAdmin := 0 })

/-- Shared tail of `_resolveFee`: manual override when non-zero, else
`DEFAULT_FEE`. -/
def overrideOrDefault (r : PoolRecord) : Nat :=
  if r.poolFeeOverride ≠ 0 then r.poolFeeOverride else DEFAULT_FEE

/-- Embeds `_resolveFee` of PayAgentHook.sol, the priority chain
strategy → manual override → `DEFAULT_FEE`.  `strategyAnswer` is the outcome
of the guarded `try strategy.getFee{ gas: 100_000 }` call (see the file
header); a returned value is clamped with
`strategyFee > MAX_FEE ? MAX_FEE : strategyFee`, a failed call falls through
exactly as the empty `catch {}` of the source does. -/
def resolveFee (r : PoolRecord) (strategyAnswer : Option Nat) : Nat :=
  if r.poolStrategy ≠ 0 then
    match strategyAnswer with
    | some strategyFee => if strategyFee > MAX_FEE then MAX_FEE else strategyFee
    | none => overrideOrDefault r
  else overrideOrDefault r

/-- Embeds the view `getEffectiveFee` (and `_getFee`, which
`BaseOverrideFee._beforeSwap` uses to produce the fee the swap engine
receives): both just delegate to `_resolveFee` on the pool's record. -/
def getEffectiveFee (s : HookState) (poolId : Nat)
    (strategyAnswer : Option Nat) : Nat :=
  resolveFee (s poolId) strategyAnswer

/-- Solidity 0.8 checked unary negation on `int256`: `-x` reverts with
`Panic(0x11)` exactly when `x = type(int256).min` (the negation is not
representable), otherwise yields `-x`. -/
def negInt256 (x : Int) : Except HookError Int :=
  if x = INT256_MIN then .error .ArithmeticPanic else .ok (-x)

/-- The `amountIn` computation of `_beforeSwap`:
`params.amountSpecified > 0 ? uint256(amountSpecified) : uint256(-amountSpecified)`.
The negation sits in checked arithmetic in the source (it is outside the
`unchecked` block), so it can panic. -/
def computeAmountIn (amountSpecified : Int) : Except HookError Nat :=
  if amountSpecified > 0 then .ok amountSpecified.toNat
  else
    match negInt256 amountSpecified with
    | .ok n => .ok n.toNat
    | .error e => .error e

/-- Embeds `_beforeSwap` of PayAgentHook.sol: first
`super._beforeSwap` resolves the fee through `_getFee` (= `_resolveFee`),
then `amountIn` is computed (checked negation!), then `swapCount` is bumped
inside an `unchecked` block, i.e. modulo `2 ^ 256`.  Returns the new state
together with the fee value handed to the swap engine (the
`OVERRIDE_FEE_FLAG` bit that the base contract ORs onto the wire format is
presentational and dropped here). -/
def beforeSwap (poolId : Nat) (amountSpecified : Int)
    (strategyAnswer : Option Nat) (s : HookState) :
    Except HookError (HookState × Nat) :=
  let fee := resolveFee (s poolId) strategyAnswer
  match computeAmountIn amountSpecified with
  | .error e => .error e
  | .ok _amountIn =>
      let r := s poolId
      .ok (setPool s poolId
        { r with swapCount := (r.swapCount + 1) % UINT256_MOD }, fee)

/-- The `volumeIn` computation of `_afterSwap`: the magnitude of `amount0`
when it is positive, else of `amount1` when it is positive, else `0`
(`uint256(uint128(x))` on a positive `int128` is its magnitude). -/
def volumeInOf (amount0 amount1 : Int) : Nat :=
  if amount0 > 0 then amount0.toNat
  else if amount1 > 0 then amount1.toNat
  else 0

/-- Embeds `_afterSwap` of PayAgentHook.sol: accumulates `volumeIn` into
`totalVolume` inside an `unchecked` block, i.e. modulo `2 ^ 256`.  The
source has no revert path here, so the embedding is a total function. -/
def afterSwap (poolId : Nat) (amount0 amount1 : Int) (s : HookState) :
    HookState :=
  let r := s poolId
  setPool s poolId
    { r with totalVolume := (r.totalVolume + volumeInOf amount0 amount1) % UINT256_MOD }

/-- One external operation on the contract, with the per-call inputs it
needs (the acting principal, values, and for the swap hooks the engine- and
strategy-supplied data). -/
inductive Op where
  | register (sender : Nat)
  | setStrategy (caller strategy : Nat)
  | queueFee (caller fee : Nat)
  | finalizeFee
  | proposeAdmin (caller newAdmin : Nat)
  | acceptAdmin (caller : Nat)
  | preSwap (amountSpecified : Int) (strategyAnswer : Option Nat)
  | postSwap (amount0 amount1 : Int)

/-- Dispatch an operation against pool `poolId` at block `blockNumber`. -/
def runOp (op : Op) (poolId blockNumber : Nat) (s : HookState) :
    Except HookError HookState :=
  match op with
  | .register sender => registerPool sender poolId s
  | .setStrategy caller strategy => setPoolStrategy caller poolId strategy s
  | .queueFee caller fee => setPoolFee caller poolId fee blockNumber s
  | .finalizeFee => finalizePoolFee poolId blockNumber s
  | .proposeAdmin caller newAdmin => transferPoolAdmin caller poolId newAdmin s
  | .acceptAdmin caller => acceptPoolAdmin caller poolId s
  | .preSwap amountSpecified strategyAnswer =>
      match beforeSwap poolId amountSpecified strategyAnswer s with
      | .ok (s', _) => .ok s'
      | .error e => .error e
  | .postSwap amount0 amount1 => .ok (afterSwap poolId amount0 amount1 s)

/-- Run an operation with revert semantics: an error rolls back to the old
state. -/
def applyOp (op : Op) (poolId blockNumber : Nat) (s : HookState) : HookState :=
  match runOp op poolId blockNumber s with
  | .ok s' => s'
  | .error _ => s

/-- Run a whole sequence of operations, each with its target pool and block
number, with revert semantics for every failing call. -/
def runOps : List (Op × Nat × Nat) → HookState → HookState
  | [], s => s
  | (op, poolId, blockNumber) :: rest, s =>
      runOps rest (applyOp op poolId blockNumber s)

/-- The states the deployed contract can actually be in: the initial storage
and everything reachable from it through successful operations. -/
inductive Reachable : HookState → Prop where
  | init : Reachable initialState
  | step {s s' : HookState} (op : Op) (poolId blockNumber : Nat) :
      Reachable s → runOp op poolId blockNumber s = .ok s' → Reachable s'

/-! ### Concrete states used to exercise the theorems -/

/-- A pool record whose swap counter sits at the `uint256` maximum. -/
def maxCountPool : PoolRecord := { emptyPool with swapCount := UINT256_MOD - 1 }

/-- A pool record whose volume accumulator sits at the `uint256` maximum. -/
def maxVolumePool : PoolRecord := { emptyPool with totalVolume := UINT256_MOD - 1 }

/-- Storage after pool `1` was registered by principal `5`. -/
def demoRegistered : HookState := applyOp (.register 5) 1 0 initialState

/-- Storage after pool `1` was registered by `5` and `5` attached strategy
`3`. -/
def demoWithStrategy : HookState := applyOp (.setStrategy 5 3) 1 0 demoRegistered

/-- Storage after admin `5` of pool `1` additionally proposed `6` as the new
admin. -/
def demoProposed : HookState := applyOp (.proposeAdmin 5 6) 1 0 demoRegistered

/-- The write-time fee bound of the data model: every pool's active override
and queued fee stay within `MAX_FEE`. -/
def FeesInRange (s : HookState) : Prop :=
  ∀ p, (s p).poolFeeOverride ≤ MAX_FEE ∧ (s p).pendingFee ≤ MAX_FEE

/-! ### Basic storage lemmas -/

theorem setPool_same (s : HookState) (p : Nat) (r : PoolRecord) :
    setPool s p r p = r := by
  simp [setPool]

theorem setPool_other (s : HookState) (p q : Nat) (r : PoolRecord)
    (h : q ≠ p) : setPool s p r q = s q := by
  simp [setPool, h]

set_option linter.unnecessarySeqFocus false in
/-- Every successful operation on pool `poolId` rewrites storage only through
a point update at `poolId`: any other pool's record is untouched. -/
theorem runOp_frame (op : Op) (poolId blockNumber : Nat) (s s' : HookState)
    (h : runOp op poolId blockNumber s = .ok s') (q : Nat) (hq : q ≠ poolId) :
    s' q = s q := by
  cases op with
  | preSwap amountSpecified strategyAnswer =>
      simp only [runOp, beforeSwap] at h
      split at h
      case h_1 s2 fee heq =>
        simp only [Except.ok.injEq] at h
        subst h
        split at heq
        · exact absurd heq (by simp)
        · simp only [Except.ok.injEq, Prod.mk.injEq] at heq
          rw [← heq.1]
          exact setPool_other _ _ _ _ hq
      case h_2 => exact absurd h (by simp)
  | _ =>
      simp only [runOp, registerPool, setPoolStrategy, setPoolFee,
        finalizePoolFee, transferPoolAdmin, acceptPoolAdmin,
        afterSwap] at h
      (repeat' split at h) <;>
        simp only [reduceCtorEq, Except.ok.injEq] at h <;>
        (subst h; exact setPool_other _ _ _ _ hq)

/-- Evaluating the storage of `demoRegistered` at pool `1`. -/
theorem demoRegistered_at_one :
    demoRegistered 1 = { emptyPool with poolAdmin := 5 } := rfl

/-- `demoRegistered` is a reachable contract state. -/
theorem demoRegistered_reachable : Reachable demoRegistered :=
  Reachable.step (.register 5) 1 0 Reachable.init rfl

/-- `demoWithStrategy` is a reachable contract state. -/
theorem demoWithStrategy_reachable : Reachable demoWithStrategy :=
  Reachable.step (.setStrategy 5 3) 1 0 demoRegistered_reachable rfl

/-- One successful operation preserves the write-time fee bound. -/
theorem feesInRange_step (op : Op) (poolId blockNumber : Nat)
    (s s' : HookState) (hs : FeesInRange s)
    (h : runOp op poolId blockNumber s = .ok s') : FeesInRange s' := by
  intro p
  by_cases hp : p = poolId
  case neg => rw [runOp_frame op poolId blockNumber s s' h p hp]; exact hs p
  subst hp
  cases op with
  | register sender =>
      simp only [runOp, registerPool] at h
      split at h
      · exact absurd h (by simp)
      · simp only [Except.ok.injEq] at h
        subst h
        simpa only [setPool_same] using hs p
  | setStrategy caller strategy =>
      simp only [runOp, setPoolStrategy] at h
      split at h
      · exact absurd h (by simp)
      · simp only [Except.ok.injEq] at h
        subst h
        simpa only [setPool_same] using hs p
  | queueFee caller fee =>
      simp only [runOp, setPoolFee] at h
      split at h
      · exact absurd h (by simp)
      · split at h
        · exact absurd h (by simp)
        · rename_i hfee
          simp only [Except.ok.injEq] at h
          subst h
          simp only [setPool_same]
          exact ⟨(hs p).1, by omega⟩
  | finalizeFee =>
      simp only [runOp, finalizePoolFee] at h
      split at h
      · exact absurd h (by simp)
      · simp only [Except.ok.injEq] at h
        subst h
        simp only [setPool_same]
        exact ⟨(hs p).2, by omega⟩
  | proposeAdmin caller newAdmin =>
      simp only [runOp, transferPoolAdmin] at h
      split at h
      · exact absurd h (by simp)
      · split at h
        · exact absurd h (by simp)
        · simp only [Except.ok.injEq] at h
          subst h
          simpa only [setPool_same] using hs p
  | acceptAdmin caller =>
      simp only [runOp, acceptPoolAdmin] at h
      split at h
      · exact absurd h (by simp)
      · split at h
        · exact absurd h (by simp)
        · simp only [Except.ok.injEq] at h
          subst h
          simpa only [setPool_same] using hs p
  | preSwap amountSpecified strategyAnswer =>
      simp only [runOp, beforeSwap] at h
      split at h
      next s2 fee heq =>
        simp only [Except.ok.injEq] at h
        subst h
        split at heq
        · exact absurd heq (by simp)
        · simp only [Except.ok.injEq, Prod.mk.injEq] at heq
          rw [← heq.1]
          simpa only [setPool_same] using hs p
      next => exact absurd h (by simp)
  | postSwap amount0 amount1 =>
      simp only [runOp, afterSwap, Except.ok.injEq] at h
      subst h
      simpa only [setPool_same] using hs p

/-- Every reachable contract state satisfies the write-time fee bound. -/
theorem reachable_feesInRange (s : HookState) (h : Reachable s) :
    FeesInRange s := by
  induction h with
  | init =>
      intro p
      exact ⟨by simp [initialState, emptyPool, MAX_FEE],
        by simp [initialState, emptyPool, MAX_FEE]⟩
  | step op poolId blockNumber _ hok ih =>
      exact feesInRange_step op poolId blockNumber _ _ ih hok

/-- `_resolveFee` never exceeds `MAX_FEE` when the stored override does not. -/
theorem resolveFee_le (r : PoolRecord) (hov : r.poolFeeOverride ≤ MAX_FEE)
    (strategyAnswer : Option Nat) : resolveFee r strategyAnswer ≤ MAX_FEE := by
  unfold resolveFee overrideOrDefault
  split
  · cases strategyAnswer with
    | some v =>
        simp only
        split <;> omega
    | none =>
        simp only
        split
        · exact hov
        · decide
  · split
    · exact hov
    · decide

/-- An operation that fails on one pool never touches admin data; a
successful one never resets a non-zero admin (registration requires a zero
admin, acceptance installs a non-zero pending admin, nothing else writes the
field). -/
theorem applyOp_admin_nonzero (op : Op) (poolId blockNumber : Nat)
    (s : HookState) (p : Nat) (h : (s p).poolAdmin ≠ 0) :
    ((applyOp op poolId blockNumber s) p).poolAdmin ≠ 0 := by
  cases hrun : runOp op poolId blockNumber s with
  | error e =>
      simp only [applyOp, hrun]
      exact h
  | ok s' =>
      have happ : applyOp op poolId blockNumber s = s' := by
        simp only [applyOp, hrun]
      rw [happ]
      by_cases hp : p = poolId
      case neg => rw [runOp_frame op poolId blockNumber s s' hrun p hp]; exact h
      subst hp
      cases op with
      | register sender =>
          simp only [runOp, registerPool] at hrun
          split at hrun
          · exact absurd hrun (by simp)
          · rename_i hzero
            exact absurd (by simpa using hzero) h
      | setStrategy caller strategy =>
          simp only [runOp, setPoolStrategy] at hrun
          split at hrun
          · exact absurd hrun (by simp)
          · simp only [Except.ok.injEq] at hrun
            subst hrun
            simpa only [setPool_same] using h
      | queueFee caller fee =>
          simp only [runOp, setPoolFee] at hrun
          split at hrun
          · exact absurd hrun (by simp)
          · split at hrun
            · exact absurd hrun (by simp)
            · simp only [Except.ok.injEq] at hrun
              subst hrun
              simpa only [setPool_same] using h
      | finalizeFee =>
          simp only [runOp, finalizePoolFee] at hrun
          split at hrun
          · exact absurd hrun (by simp)
          · simp only [Except.ok.injEq] at hrun
            subst hrun
            simpa only [setPool_same] using h
      | proposeAdmin caller newAdmin =>
          simp only [runOp, transferPoolAdmin] at hrun
          split at hrun
          · exact absurd hrun (by simp)
          · split at hrun
            · exact absurd hrun (by simp)
            · simp only [Except.ok.injEq] at hrun
              subst hrun
              simpa only [setPool_same] using h
      | acceptAdmin caller =>
          simp only [runOp, acceptPoolAdmin] at hrun
          split at hrun
          · exact absurd hrun (by simp)
          · split at hrun
            · exact absurd hrun (by simp)
            · rename_i hpend _
              simp only [Except.ok.injEq] at hrun
              subst hrun
              simpa only [setPool_same] using hpend
      | preSwap amountSpecified strategyAnswer =>
          simp only [runOp, beforeSwap] at hrun
          split at hrun
          next s2 fee heq =>
            simp only [Except.ok.injEq] at hrun
            subst hrun
            split at heq
            · exact absurd heq (by simp)
            · simp only [Except.ok.injEq, Prod.mk.injEq] at heq
              rw [← heq.1]
              simpa only [setPool_same] using h
          next => exact absurd hrun (by simp)
      | postSwap amount0 amount1 =>
          simp only [runOp, afterSwap, Except.ok.injEq] at hrun
          subst hrun
          simpa only [setPool_same] using h

/-- A non-zero pool admin stays non-zero under any sequence of operations
(each applied with revert semantics). -/
theorem runOps_admin_nonzero (l : List (Op × Nat × Nat)) (s : HookState)
    (p : Nat) (h : (s p).poolAdmin ≠ 0) :
    ((runOps l s) p).poolAdmin ≠ 0 := by
  induction l generalizing s with
  | nil => exact h
  | cons hd tl ih =>
      obtain ⟨op, poolId, blockNumber⟩ := hd
      exact ih _ (applyOp_admin_nonzero op poolId blockNumber s p h)

/-! ### Claim C9: pool independence -/

/-- Claim C9: for every operation of the system applied to pool `p1`, every
field of every other pool `p2 ≠ p1` is unchanged (a failing operation
reverts, so it changes nothing anywhere; a succeeding one only performs a
point update at `p1`). -/
theorem pool_independence (op : Op) (p1 blockNumber : Nat) (s s' : HookState)
    (p2 : Nat) (hne : p2 ≠ p1) (h : runOp op p1 blockNumber s = .ok s') :
    s' p2 = s p2 :=
  runOp_frame op p1 blockNumber s s' h p2 hne

theorem pool_independence_witness :
    (setPool initialState 1 { emptyPool with poolAdmin := 5 }) 2 =
      initialState 2 :=
  pool_independence (.register 5) 1 0 initialState _ 2 (by decide) rfl

/-! ### Claim C2: fee resolution priority chain -/

/-- Claim C2: `_resolveFee` follows the priority chain exactly: a strategy
that answers `v` yields `v` clamped to `MAX_FEE`; when the strategy is
absent or its guarded invocation fails, the result is `poolFeeOverride` if
non-zero and `DEFAULT_FEE` otherwise. -/
theorem resolveFee_priority (r : PoolRecord) (strategyAnswer : Option Nat) :
    (r.poolStrategy ≠ 0 → ∀ v, resolveFee r (some v) = min v MAX_FEE) ∧
    (r.poolStrategy = 0 ∨ strategyAnswer = none →
      resolveFee r strategyAnswer =
        if r.poolFeeOverride ≠ 0 then r.poolFeeOverride else DEFAULT_FEE) := by
  constructor
  · intro hs v
    simp only [resolveFee, if_pos hs]
    split <;> omega
  · rintro (h0 | hnone)
    · simp [resolveFee, h0, overrideOrDefault]
    · subst hnone
      by_cases hs : r.poolStrategy ≠ 0 <;>
        simp [resolveFee, hs, overrideOrDefault]

theorem resolveFee_priority_witness :
    resolveFee { emptyPool with poolStrategy := 3 } (some 20000) =
      min 20000 MAX_FEE ∧
    resolveFee { emptyPool with poolFeeOverride := 100 } none = 100 ∧
    resolveFee emptyPool none = DEFAULT_FEE := by
  refine ⟨(resolveFee_priority _ (some 20000)).1 (by decide) 20000, ?_, ?_⟩
  · have h :=
      (resolveFee_priority { emptyPool with poolFeeOverride := 100 } none).2
        (Or.inl rfl)
    simpa using h
  · have h := (resolveFee_priority emptyPool none).2 (Or.inl rfl)
    simpa using h

/-! ### Claim C5: the swap-path hooks and extreme inputs -/

/-- Claim C5 fails on the code: the `amountIn` computation of `_beforeSwap`
negates `params.amountSpecified` in checked arithmetic (outside the
`unchecked` block), so at `amountSpecified = type(int256).min` the hook
reverts with an arithmetic panic and the swap is blocked — even though both
the spec and the code's own comments require the swap path never to fail.
This theorem evaluates the embedded hook at that failing input. -/
theorem beforeSwap_panics_at_int256_min :
    beforeSwap 1 INT256_MIN none initialState = .error .ArithmeticPanic ∧
    runOp (.preSwap INT256_MIN none) 1 0 initialState =
      .error .ArithmeticPanic :=
  ⟨rfl, rfl⟩

/-! ### Claim C4: analytics counters at the representable maximum -/

set_option maxRecDepth 4000 in
/-- Claim C4 counterexample: with `swapCount` at the `uint256` maximum, a
pre-swap wraps the counter to `0` (the source increments inside an
`unchecked` block) instead of keeping it at the maximum, so the counters are
wrapping, not saturating. -/
theorem swapCount_wraps_at_max :
    ∃ s' fee,
      beforeSwap 1 1 none (setPool initialState 1 maxCountPool) =
        .ok (s', fee) ∧
      (s' 1).swapCount = 0 ∧ (s' 1).swapCount ≠ UINT256_MOD - 1 := by
  refine ⟨_, _, rfl, ?_, ?_⟩
  · simp [setPool_same, maxCountPool, UINT256_MOD]
  · simp [setPool_same, maxCountPool, UINT256_MOD]

/-- Claim C4 (amended): on every successful pre-swap `swapCount` becomes
`(swapCount + 1) % 2 ^ 256`, and on every post-swap `totalVolume` becomes
`(totalVolume + volumeIn) % 2 ^ 256` — unchecked wrapping arithmetic, so at
the representable maximum the counters wrap around to zero rather than
saturating or raising an overflow error. -/
theorem counters_wrap_modulo (poolId : Nat) (amountSpecified : Int)
    (strategyAnswer : Option Nat) (amount0 amount1 : Int) (s s' : HookState)
    (fee : Nat)
    (h : beforeSwap poolId amountSpecified strategyAnswer s = .ok (s', fee)) :
    (s' poolId).swapCount = ((s poolId).swapCount + 1) % UINT256_MOD ∧
    ((afterSwap poolId amount0 amount1 s) poolId).totalVolume =
      ((s poolId).totalVolume + volumeInOf amount0 amount1) % UINT256_MOD := by
  constructor
  · simp only [beforeSwap] at h
    split at h
    · exact absurd h (by simp)
    · simp only [Except.ok.injEq, Prod.mk.injEq] at h
      rw [← h.1, setPool_same]
  · simp only [afterSwap, setPool_same]

theorem counters_wrap_modulo_witness :
    ∃ s' fee,
      beforeSwap 1 5 none initialState = .ok (s', fee) ∧
      (s' 1).swapCount = ((initialState 1).swapCount + 1) % UINT256_MOD ∧
      ((afterSwap 1 2 (-3) initialState) 1).totalVolume =
        ((initialState 1).totalVolume + volumeInOf 2 (-3)) % UINT256_MOD :=
  ⟨_, _, rfl, counters_wrap_modulo 1 5 none 2 (-3) initialState _ _ rfl⟩

/-! ### Claim C8: volume computation from the settlement delta -/

/-- Claim C8 counterexample: with `totalVolume` at the `uint256` maximum and
`volumeIn = 1`, the post-swap hook leaves `totalVolume = 0` — it does not
increase by exactly `volumeIn` (the unchecked accumulation wraps modulo
`2 ^ 256`). -/
theorem totalVolume_not_exact_increase :
    ((afterSwap 1 1 0 (setPool initialState 1 maxVolumePool)) 1).totalVolume
      = 0 ∧
    ((afterSwap 1 1 0 (setPool initialState 1 maxVolumePool)) 1).totalVolume
      ≠ ((setPool initialState 1 maxVolumePool) 1).totalVolume +
          volumeInOf 1 0 := by
  exact ⟨rfl, by decide⟩

/-- Claim C8 (amended): `onPostSwap` computes `volumeIn` as the magnitude of
whichever side of the settlement delta is positive (`amount0` checked
first), `0` when neither side is positive, and accumulates it into
`totalVolume` modulo `2 ^ 256` — so `totalVolume` increases by exactly
`volumeIn` whenever the sum does not exceed the `uint256` maximum. -/
theorem afterSwap_volume (poolId : Nat) (amount0 amount1 : Int)
    (s : HookState) :
    (amount0 > 0 → volumeInOf amount0 amount1 = amount0.natAbs) ∧
    (¬ amount0 > 0 → amount1 > 0 →
      volumeInOf amount0 amount1 = amount1.natAbs) ∧
    (¬ amount0 > 0 → ¬ amount1 > 0 → volumeInOf amount0 amount1 = 0) ∧
    ((afterSwap poolId amount0 amount1 s) poolId).totalVolume =
      ((s poolId).totalVolume + volumeInOf amount0 amount1) % UINT256_MOD ∧
    ((s poolId).totalVolume + volumeInOf amount0 amount1 < UINT256_MOD →
      ((afterSwap poolId amount0 amount1 s) poolId).totalVolume =
        (s poolId).totalVolume + volumeInOf amount0 amount1) := by
  refine ⟨fun h0 => ?_, fun h0 h1 => ?_, fun h0 h1 => ?_, ?_, fun hlt => ?_⟩
  · simp only [volumeInOf, if_pos h0]
    exact Int.toNat_of_nonneg (le_of_lt h0) ▸ (Int.natAbs_of_nonneg (le_of_lt h0)) ▸ rfl
  · simp only [volumeInOf, if_neg h0, if_pos h1]
    exact Int.toNat_of_nonneg (le_of_lt h1) ▸ (Int.natAbs_of_nonneg (le_of_lt h1)) ▸ rfl
  · simp [volumeInOf, h0, h1]
  · simp only [afterSwap, setPool_same]
  · simp only [afterSwap, setPool_same]
    exact Nat.mod_eq_of_lt hlt

theorem afterSwap_volume_witness :
    volumeInOf 7 (-2) = (7 : Int).natAbs ∧
    volumeInOf (-2) 7 = (7 : Int).natAbs ∧
    volumeInOf (-2) (-7) = 0 ∧
    ((afterSwap 1 7 (-2) initialState) 1).totalVolume =
      ((initialState 1).totalVolume + volumeInOf 7 (-2)) % UINT256_MOD ∧
    ((afterSwap 1 7 (-2) initialState) 1).totalVolume =
      (initialState 1).totalVolume + volumeInOf 7 (-2) := by
  have h := afterSwap_volume 1 7 (-2) initialState
  have h' := afterSwap_volume 1 (-2) 7 initialState
  have h'' := afterSwap_volume 1 (-2) (-7) initialState
  exact ⟨h.1 (by decide), h'.2.1 (by decide) (by decide),
    h''.2.2.1 (by decide) (by decide), h.2.2.2.1,
    h.2.2.2.2 (by decide)⟩

/-! ### Claim C1: bounded fee -/

/-- Claim C1: in every reachable contract state, for every pool and every
strategy behaviour — any returned value, however large, or any failure — the
resolved fee lies in `[0, MAX_FEE]` (the lower bound is inherent in the
unsigned type); a strategy returning `999999` yields exactly `MAX_FEE`; and
the fee handed to the swap engine by the swap-path hook obeys the same
bound. -/
theorem effectiveFee_bounded (s : HookState) (h : Reachable s) (p : Nat)
    (strategyAnswer : Option Nat) :
    getEffectiveFee s p strategyAnswer ≤ MAX_FEE ∧
    ((s p).poolStrategy ≠ 0 →
      getEffectiveFee s p (some 999999) = MAX_FEE) ∧
    (∀ amountSpecified s' fee,
      beforeSwap p amountSpecified strategyAnswer s = .ok (s', fee) →
      fee ≤ MAX_FEE) := by
  have hinv := reachable_feesInRange s h p
  refine ⟨resolveFee_le (s p) hinv.1 strategyAnswer, fun hs => ?_, ?_⟩
  · simp only [getEffectiveFee, resolveFee, if_pos hs]
    decide
  · intro amountSpecified s' fee hrun
    simp only [beforeSwap] at hrun
    split at hrun
    · exact absurd hrun (by simp)
    · simp only [Except.ok.injEq, Prod.mk.injEq] at hrun
      rw [← hrun.2]
      exact resolveFee_le (s p) hinv.1 strategyAnswer

theorem effectiveFee_bounded_witness :
    getEffectiveFee demoWithStrategy 1 (some 20000) ≤ MAX_FEE ∧
    getEffectiveFee demoWithStrategy 1 (some 999999) = MAX_FEE ∧
    (∃ s' fee, beforeSwap 1 7 (some 20000) demoWithStrategy = .ok (s', fee) ∧
      fee ≤ MAX_FEE) := by
  have h := effectiveFee_bounded demoWithStrategy demoWithStrategy_reachable
    1 (some 20000)
  exact ⟨h.1, (effectiveFee_bounded demoWithStrategy
      demoWithStrategy_reachable 1 (some 999999)).2.1 (by decide),
    _, _, rfl, h.2.2 7 _ _ rfl⟩

/-! ### Claim C3: timelock enforcement -/

/-- Claim C3: once the admin queues a value `v ≤ MAX_FEE` at block `T`,
`finalizePoolFee` (a permissionless call) fails with `FeeChangeTimelocked`
at every block strictly before `T + TIMELOCK_BLOCKS` — and an error is a
revert, leaving the pool state unchanged — while from block
`T + TIMELOCK_BLOCKS` on it succeeds, installs `poolFeeOverride = v` and
clears `pendingFee` and `feeReadyBlock`; moreover it fails with
`FeeChangeTimelocked` in any state where nothing is queued
(`feeReadyBlock = 0`). -/
theorem finalizeFee_timelock (s s1 : HookState) (caller p v T : Nat)
    (hq : setPoolFee caller p v T s = .ok s1) :
    (∀ t, t < T + TIMELOCK_BLOCKS →
      finalizePoolFee p t s1 =
        .error (.FeeChangeTimelocked p (T + TIMELOCK_BLOCKS))) ∧
    (∀ t, T + TIMELOCK_BLOCKS ≤ t → ∃ s2,
      finalizePoolFee p t s1 = .ok s2 ∧ (s2 p).poolFeeOverride = v ∧
      (s2 p).pendingFee = 0 ∧ (s2 p).feeReadyBlock = 0) ∧
    (∀ s' : HookState, ∀ q t, (s' q).feeReadyBlock = 0 →
      finalizePoolFee q t s' = .error (.FeeChangeTimelocked q 0)) := by
  simp only [setPoolFee] at hq
  split at hq
  · exact absurd hq (by simp)
  · split at hq
    · exact absurd hq (by simp)
    · simp only [Except.ok.injEq] at hq
      subst hq
      have hTL : (0 : Nat) < TIMELOCK_BLOCKS := by decide
      refine ⟨fun t ht => ?_, fun t ht => ?_, fun s' q t h0 => ?_⟩
      · simp only [finalizePoolFee, setPool_same]
        rw [if_pos (Or.inr ht)]
      · have hfin : finalizePoolFee p t (setPool s p { s p with pendingFee := v, feeReadyBlock := T + TIMELOCK_BLOCKS }) = .ok (setPool (setPool s p { s p with pendingFee := v, feeReadyBlock := T + TIMELOCK_BLOCKS }) p { s p with poolFeeOverride := v, pendingFee := 0, feeReadyBlock := 0 }) := by
          simp only [finalizePoolFee, setPool_same]
          rw [if_neg (by omega)]
        exact ⟨_, hfin, by simp [setPool_same], by simp [setPool_same],
          by simp [setPool_same]⟩
      · simp [finalizePoolFee, h0]

theorem finalizeFee_timelock_witness :
    ∃ s1, setPoolFee 5 1 100 20 demoRegistered = .ok s1 ∧
      finalizePoolFee 1 169 s1 =
        .error (.FeeChangeTimelocked 1 (20 + TIMELOCK_BLOCKS)) ∧
      (∃ s2, finalizePoolFee 1 170 s1 = .ok s2 ∧
        (s2 1).poolFeeOverride = 100 ∧ (s2 1).pendingFee = 0 ∧
        (s2 1).feeReadyBlock = 0) ∧
      finalizePoolFee 2 170 demoRegistered =
        .error (.FeeChangeTimelocked 2 0) := by
  obtain ⟨hbefore, hafter, hnothing⟩ :=
    finalizeFee_timelock demoRegistered _ 5 1 100 20 rfl
  exact ⟨_, rfl, hbefore 169 (by decide), hafter 170 (by decide),
    hnothing demoRegistered 2 170 rfl⟩

/-! ### Claim C6: two-step admin transfer -/

/-- Claim C6 counterexample: the claim fails when the admin proposes itself.
Admin `5` of pool `1` proposes `5` (non-empty), acceptance by `5` succeeds —
and afterwards `5`, the old admin `A`, still passes the admin gate: its
`setPoolFee` call succeeds instead of failing with `Unauthorized`. -/
theorem twoStep_self_transfer_counterexample :
    ∃ s1 s2 s3,
      transferPoolAdmin 5 1 5 demoRegistered = .ok s1 ∧
      acceptPoolAdmin 5 1 s1 = .ok s2 ∧
      (s2 1).poolAdmin = 5 ∧ (s2 1).pendingPoolAdmin = 0 ∧
      setPoolFee 5 1 100 0 s2 = .ok s3 :=
  ⟨_, _, _, rfl, rfl, rfl, rfl, rfl⟩

/-- Claim C6 (amended): after admin `A` successfully proposes `B`
(`B` non-empty), acceptance by any principal other than `B` fails with
`NotPendingAdmin` (a revert, changing nothing); acceptance by `B` succeeds,
setting `poolAdmin = B` and clearing `pendingPoolAdmin`; and provided
`B ≠ A`, afterwards every admin-only operation called by `A` fails with
`Unauthorized`. -/
theorem twoStep_transfer_correct (s s1 : HookState) (p A B : Nat)
    (hprop : transferPoolAdmin A p B s = .ok s1) :
    (∀ C, C ≠ B → acceptPoolAdmin C p s1 = .error (.NotPendingAdmin C)) ∧
    (∃ s2, acceptPoolAdmin B p s1 = .ok s2 ∧
      (s2 p).poolAdmin = B ∧ (s2 p).pendingPoolAdmin = 0 ∧
      (A ≠ B →
        (∀ strategy, setPoolStrategy A p strategy s2 =
          .error (.Unauthorized A)) ∧
        (∀ fee t, setPoolFee A p fee t s2 = .error (.Unauthorized A)) ∧
        (∀ newAdmin, transferPoolAdmin A p newAdmin s2 =
          .error (.Unauthorized A)))) := by
  simp only [transferPoolAdmin] at hprop
  split at hprop
  · exact absurd hprop (by simp)
  · split at hprop
    · exact absurd hprop (by simp)
    · rename_i hB
      simp only [Except.ok.injEq] at hprop
      subst hprop
      refine ⟨fun C hC => ?_, ?_⟩
      · simp [acceptPoolAdmin, setPool_same, hB, hC]
      · have hacc : acceptPoolAdmin B p
            (setPool s p { s p with pendingPoolAdmin := B }) =
            .ok (setPool (setPool s p { s p with pendingPoolAdmin := B }) p
              { s p with poolAdmin := B, pendingPoolAdmin := 0 }) := by
          simp [acceptPoolAdmin, setPool_same, hB]
        refine ⟨_, hacc, ?_, ?_, fun hAB => ⟨fun strategy => ?_,
          fun fee t => ?_, fun newAdmin => ?_⟩⟩
        · simp [setPool_same]
        · simp [setPool_same]
        · simp [setPoolStrategy, setPool_same, hAB]
        · simp [setPoolFee, setPool_same, hAB]
        · simp [transferPoolAdmin, setPool_same, hAB]

theorem twoStep_transfer_correct_witness :
    transferPoolAdmin 5 1 6 demoRegistered = .ok demoProposed ∧
    acceptPoolAdmin 7 1 demoProposed = .error (.NotPendingAdmin 7) ∧
    ∃ s2, acceptPoolAdmin 6 1 demoProposed = .ok s2 ∧
      (s2 1).poolAdmin = 6 ∧ (s2 1).pendingPoolAdmin = 0 ∧
      setPoolFee 5 1 100 0 s2 = .error (.Unauthorized 5) := by
  obtain ⟨hother, s2, hacc, hadm, hpend, hrest⟩ :=
    twoStep_transfer_correct demoRegistered demoProposed 1 5 6 rfl
  exact ⟨rfl, hother 7 (by decide), s2, hacc, hadm, hpend,
    (hrest (by decide)).2.1 100 0⟩

/-! ### Claim C7: one-time registration, admin never empty again -/

/-- Claim C7: when a pool has no admin, registration by a (necessarily
non-zero, since it is an EVM `msg.sender`) initiator sets `poolAdmin` to the
initiator; any second registration for the same pool then fails with
`PoolAlreadyRegistered` — a revert, leaving every pool field unchanged — and
under every subsequent sequence of operations on any pools the admin never
becomes empty again. -/
theorem registration_once (s : HookState) (p sender : Nat)
    (h0 : (s p).poolAdmin = 0) (hs : sender ≠ 0) :
    ∃ s', registerPool sender p s = .ok s' ∧ (s' p).poolAdmin = sender ∧
      (∀ sender', registerPool sender' p s' =
        .error (.PoolAlreadyRegistered p)) ∧
      (∀ l : List (Op × Nat × Nat), ((runOps l s') p).poolAdmin ≠ 0) := by
  have hreg : registerPool sender p s =
      .ok (setPool s p { s p with poolAdmin := sender }) := by
    simp [registerPool, h0]
  refine ⟨_, hreg, ?_, ?_, ?_⟩
  · simp [setPool_same]
  · intro sender'
    simp [registerPool, setPool_same, hs]
  · intro l
    exact runOps_admin_nonzero l _ p (by simpa [setPool_same] using hs)

theorem registration_once_witness :
    ∃ s', registerPool 5 1 initialState = .ok s' ∧ (s' 1).poolAdmin = 5 ∧
      registerPool 9 1 s' = .error (.PoolAlreadyRegistered 1) ∧
      ((runOps [(.acceptAdmin 4, 1, 0), (.preSwap 1 none, 1, 0)] s')
          1).poolAdmin ≠ 0 := by
  obtain ⟨s', h1, h2, h3, h4⟩ := registration_once initialState 1 5 rfl
    (by decide)
  exact ⟨s', h1, h2, h3 9, h4 [(.acceptAdmin 4, 1, 0), (.preSwap 1 none, 1, 0)]⟩

/-! ### Claim C10: queuing zero cancels an active override -/

/-- Claim C10: `setPoolFee` accepts the value `0`, and finalizing it after
the timelock resets `poolFeeOverride` to `0`, so the timelocked queue
doubles as a cancellation path: afterwards, absent a strategy, the effective
fee is `DEFAULT_FEE` again. -/
theorem queue_zero_cancels_override (s : HookState) (caller p T t : Nat)
    (hadmin : (s p).poolAdmin = caller) (ht : T + TIMELOCK_BLOCKS ≤ t) :
    ∃ s1 s2, setPoolFee caller p 0 T s = .ok s1 ∧
      finalizePoolFee p t s1 = .ok s2 ∧
      (s2 p).poolFeeOverride = 0 ∧
      ((s p).poolStrategy = 0 →
        ∀ strategyAnswer, getEffectiveFee s2 p strategyAnswer =
          DEFAULT_FEE) := by
  have hTL : (0 : Nat) < TIMELOCK_BLOCKS := by decide
  have hq : setPoolFee caller p 0 T s = .ok (setPool s p { s p with pendingFee := 0, feeReadyBlock := T + TIMELOCK_BLOCKS }) := by
    simp [setPoolFee, hadmin, MAX_FEE]
  have hfin : finalizePoolFee p t (setPool s p { s p with pendingFee := 0, feeReadyBlock := T + TIMELOCK_BLOCKS }) = .ok (setPool (setPool s p { s p with pendingFee := 0, feeReadyBlock := T + TIMELOCK_BLOCKS }) p { s p with poolFeeOverride := 0, pendingFee := 0, feeReadyBlock := 0 }) := by
    simp only [finalizePoolFee, setPool_same]
    rw [if_neg (by omega)]
  refine ⟨_, _, hq, hfin, ?_, ?_⟩
  · simp [setPool_same]
  · intro hstrat strategyAnswer
    simp [getEffectiveFee, resolveFee, overrideOrDefault, setPool_same,
      hstrat]

theorem queue_zero_cancels_override_witness :
    ∃ s1 s2, setPoolFee 5 1 0 20 demoRegistered = .ok s1 ∧
      finalizePoolFee 1 170 s1 = .ok s2 ∧
      (s2 1).poolFeeOverride = 0 ∧
      getEffectiveFee s2 1 none = DEFAULT_FEE := by
  obtain ⟨s1, s2, h1, h2, h3, h4⟩ :=
    queue_zero_cancels_override demoRegistered 5 1 20 170 rfl (by decide)
  exact ⟨s1, s2, h1, h2, h3, h4 rfl none⟩

end PayAgentHook
